import Mathlib

/-!
Verification of the query-placeholder transformation engine of
`psycopg3/psycopg3/utils/queries.py`.

Queries are modelled as lists of bytes (`List Nat`); placeholder names are
byte lists as well (the text encoding is abstracted away: it only matters
for error messages in the source and for the `str` → `bytes` step, which is
modelled by working on query bytes directly).  The regex `_re_placeholder`
is embedded as an explicit byte-level scanner `matchAt`/`scanGo`, the
validation loop of `_split_query` as `buildParts`, the rewriter `_query2pg`
as `query2pg`, the reconciler `_validate_and_reorder_params` as
`validateAndReorder`, and the session object `PostgresQuery` as the
state-passing functions `PGQuery.convert` / `PGQuery.dump` over an abstract
dumper interface.
-/

namespace Psycopg3

/-- Wire format of a parameter, `Format` in `psycopg3.pq` (`TEXT = 0`,
`BINARY = 1`). -/
inductive Format where
  | text
  | binary
deriving DecidableEq, Repr

/-- The `item` field of a `QueryPart`: either a zero-based occurrence index
(anonymous placeholders) or a name (named placeholders), mirroring
`Union[int, str]` in the source. -/
inductive PhItem where
  | index (i : Nat)
  | name (n : List Nat)
deriving DecidableEq, Repr

/-- Whether the item is a name (Python `isinstance(item, str)`). -/
def PhItem.isName : PhItem → Bool
  | .index _ => false
  | .name _ => true

/-- The name carried by a named item (dummy `[]` for an index item, which the
source excludes by `assert isinstance(part.item, str)`). -/
def PhItem.nm : PhItem → List Nat
  | .index _ => []
  | .name n => n

/-- The index carried by an anonymous item (dummy `0` for a name item, which
the source excludes by `assert isinstance(part.item, int)`). -/
def PhItem.idx : PhItem → Nat
  | .index i => i
  | .name _ => 0

/-- `QueryPart` from the source: literal prefix, placeholder id, format. -/
structure QueryPart where
  pre : List Nat
  item : PhItem
  format : Format
deriving DecidableEq, Repr

instance : Inhabited QueryPart := ⟨⟨[], .index 0, .text⟩⟩

/-- The errors raised by the engine (`ProgrammingError` / `TypeError`
variants, distinguished by their trigger). -/
inductive QueryError where
  /-- `incomplete placeholder: '...'` for a `%(` match. -/
  | incompletePlaceholder (fragment : List Nat)
  /-- `incomplete placeholder: '%'; ... use '%%'` for a `% ` match. -/
  | incompletePercent
  /-- `only '%s' and '%b' placeholders allowed, got ...`. -/
  | badPlaceholder (ph : List Nat)
  /-- `positional and named placeholders cannot be mixed`. -/
  | mixedPlaceholders
  /-- `placeholder '...' cannot have different formats`. -/
  | formatMismatch (name : List Nat)
  /-- `the query has N placeholders but M parameters were passed`. -/
  | countMismatch (expected got : Nat)
  /-- `named placeholders require a mapping of parameters`. -/
  | namedRequireMapping
  /-- `positional placeholders (%s) require a sequence of parameters`. -/
  | positionalRequireSequence
  /-- `query parameter missing: ...` listing the missing names, sorted. -/
  | missingKeys (names : List (List Nat))
  /-- Use of session state that was never set (`AttributeError` /
  `AssertionError` in the Python source). -/
  | missingState
deriving DecidableEq, Repr

/-! ### The tokenizer: the regex `_re_placeholder` as a byte scanner

The pattern is `%(?:(?:\(([^)]+)\).)|(?:.))` (verbose flags removed): a `%`
followed by either `(name)` plus one format character, or any single
character; `.` does not match a newline (byte 10), `[^)]+` is one or more
bytes other than `)` (byte 41). -/

/-- A regex match: `g0` is `group(0)` (the matched bytes), `g1` is
`group(1)` (the name, for the named alternative). -/
structure Token where
  g0 : List Nat
  g1 : Option (List Nat)
deriving DecidableEq, Repr

/-- Index of the first `)` (byte 41) in a byte list, if any. -/
def findRParen : List Nat → Option Nat
  | [] => none
  | c :: rest =>
    if c = 41 then some 0
    else (findRParen rest).map (· + 1)

/-- First regex alternative `%\(([^)]+)\).`: a `%(`, a nonempty name up to
the first `)`, and one non-newline format character after the `)`.  Returns
the token and the number of bytes consumed after the leading `%` (so a match
on `c :: rest` leaves `rest.drop n`). -/
def alt1 : List Nat → Option (Token × Nat)
  | c :: c2 :: rest2 =>
    if c = 37 then
      if c2 = 40 then
        match findRParen rest2 with
        | some k =>
          if k = 0 then none
          else
            match rest2.drop (k + 1) with
            | [] => none
            | c3 :: _ =>
              if c3 = 10 then none
              else
                some (⟨[37, 40] ++ rest2.take (k + 1) ++ [c3],
                       some (rest2.take k)⟩, k + 3)
        | none => none
      else none
    else none
  | _ => none

/-- Second regex alternative `%.`: a `%` followed by any non-newline byte. -/
def alt2 : List Nat → Option (Token × Nat)
  | c :: c2 :: _ =>
    if c = 37 then
      if c2 = 10 then none else some (⟨[37, c2], none⟩, 1)
    else none
  | _ => none

/-- Attempt to match `_re_placeholder` at the head of the input: the named
alternative is tried first, as in the regex. -/
def matchAt (l : List Nat) : Option (Token × Nat) :=
  match alt1 l with
  | some res => some res
  | none => alt2 l

/-- The `finditer` loop of `_split_query`: split the query into
`(literal prefix, match)` pairs covering the input; the last pair always has
no match.  A failed match position advances by one byte, a successful match
consumes its bytes. -/
def scanGo (pre : List Nat) (l : List Nat) : List (List Nat × Option Token) :=
  match l with
  | [] => [(pre, none)]
  | c :: rest =>
    match matchAt (c :: rest) with
    | some (tok, n) => (pre, some tok) :: scanGo [] (rest.drop n)
    | none => scanGo (pre ++ [c]) rest
termination_by l.length
decreasing_by
  · simp [List.length_drop]
    omega
  · simp

/-- Re-flatten a list of `(prefix, match)` pairs back into the query bytes
they cover (used for the offending-fragment error message, which the source
computes as `query[m.span(0)[0]:]`). -/
def flattenPairs : List (List Nat × Option Token) → List Nat
  | [] => []
  | (pre, none) :: rest => pre ++ flattenPairs rest
  | (pre, some t) :: rest => pre ++ t.g0 ++ flattenPairs rest

/-- ASCII whitespace, as used by Python `bytes.split()`. -/
def isSpaceByte (c : Nat) : Bool :=
  c = 32 || c = 9 || c = 10 || c = 13 || c = 11 || c = 12

/-- First whitespace-separated word of a byte string that starts with a
non-space byte (Python `bytes.split()[0]`). -/
def firstWord (l : List Nat) : List Nat :=
  l.takeWhile (fun c => !isSpaceByte c)

/-- The validation loop of `_split_query`: drop `%%` escapes (merging the
surrounding literals), validate each placeholder, and emit `QueryPart`s.
`idx` is the running count of placeholder parts already emitted (the Python
loop index `i`), `phtype` the kind of the first placeholder seen, if any. -/
def buildParts (idx : Nat) (phtype : Option Bool) :
    List (List Nat × Option Token) → Except QueryError (List QueryPart)
  | [] => .ok []
  | (pre, none) :: _ => .ok [⟨pre, .index 0, .text⟩]
  | (pre, some tok) :: rest =>
    if tok.g0 = [37, 37] then
      match rest with
      | [] => .ok []
      | (pre1, m1) :: rest2 =>
        buildParts idx phtype ((pre ++ 37 :: pre1, m1) :: rest2)
    else if tok.g0 = [37, 40] then
      .error (.incompletePlaceholder (firstWord (tok.g0 ++ flattenPairs rest)))
    else if tok.g0 = [37, 32] then
      .error .incompletePercent
    else if ¬ (tok.g0.getLastD 0 = 98 ∨ tok.g0.getLastD 0 = 115) then
      .error (.badPlaceholder tok.g0)
    else
      let item : PhItem := match tok.g1 with
        | none => .index idx
        | some n => .name n
      match phtype with
      | some b =>
        if b = item.isName then
          (buildParts (idx + 1) (some item.isName) rest).map
            (⟨pre, item, if tok.g0.getLastD 0 = 98 then .binary else .text⟩ :: ·)
        else .error .mixedPlaceholders
      | none =>
        (buildParts (idx + 1) (some item.isName) rest).map
          (⟨pre, item, if tok.g0.getLastD 0 = 98 then .binary else .text⟩ :: ·)
termination_by l => l.length

/-- `_split_query`: tokenize the query and run the validation loop. -/
def splitQuery (query : List Nat) : Except QueryError (List QueryPart) :=
  buildParts 0 none (scanGo [] query)

/-- Bytes of an ASCII string (the source works on the encoded query bytes;
on the spec's ASCII examples the code points are the bytes). -/
def strBytes (s : String) : List Nat := s.data.map Char.toNat

/-! ### The rewriter: `_query2pg` -/

/-- Decimal digits of a positive number (empty for `0`). -/
def natDigits : Nat → List Nat
  | 0 => []
  | n + 1 => natDigits ((n + 1) / 10) ++ [48 + (n + 1) % 10]
decreasing_by exact Nat.div_lt_self (Nat.succ_pos n) (by norm_num)

/-- Python `b"%d" % n`: the decimal rendering of `n` in bytes. -/
def natToBytes (n : Nat) : List Nat := if n = 0 then [48] else natDigits n

/-- Python `b"$%d" % n`: a destination placeholder marker. -/
def dollar (n : Nat) : List Nat := 36 :: natToBytes n

/-- The anonymous branch of `_query2pg`'s loop over `parts[:-1]`: emit
`pre` then `$(item+1)` for every part, and collect the formats. -/
def pgAnon : List QueryPart → List Nat × List Format
  | [] => ([], [])
  | p :: rest =>
    let (cs, fs) := pgAnon rest
    (p.pre ++ dollar (p.item.idx + 1) ++ cs, p.format :: fs)

/-- Association-list lookup (Python `dict` / `Mapping` access by key). -/
def alookup {β : Type} : List (List Nat × β) → List Nat → Option β
  | [], _ => none
  | (k, v) :: rest, n => if k = n then some v else alookup rest n

/-- The loop state of the named branch of `_query2pg`: the `seen` dict
(name to assigned placeholder text and format, in insertion order), the
`order` list, the emitted `chunks` (flattened), and the `formats` list. -/
structure NamedState where
  seen : List (List Nat × (List Nat × Format))
  order : List (List Nat)
  chunks : List Nat
  formats : List Format
deriving DecidableEq, Repr

/-- One iteration of the named branch of `_query2pg`: a fresh name is
assigned the next marker `$(len(seen)+1)` and appended to `seen`, `order`
and `formats`; a seen name reuses its stored marker, failing if its format
differs from the recorded one. -/
def pgNamedStep (s : NamedState) (p : QueryPart) : Except QueryError NamedState :=
  match alookup s.seen p.item.nm with
  | none =>
    let ph := dollar (s.seen.length + 1)
    .ok ⟨s.seen ++ [(p.item.nm, (ph, p.format))], s.order ++ [p.item.nm],
         s.chunks ++ p.pre ++ ph, s.formats ++ [p.format]⟩
  | some (ph, f) =>
    if f ≠ p.format then .error (.formatMismatch p.item.nm)
    else .ok { s with chunks := s.chunks ++ p.pre ++ ph }

/-- `_query2pg`: split the query and rewrite the placeholders into `$n`
markers, returning `(query bytes, formats, order, parts)`.  (The `lru_cache`
memoization of the source is sound because this is a pure function.) -/
def query2pg (query : List Nat) :
    Except QueryError
      (List Nat × List Format × Option (List (List Nat)) × List QueryPart) := do
  let parts ← splitQuery query
  match parts with
  | [] => .ok ([], [], none, [])
  | p0 :: _ =>
    if p0.item.isName then do
      let s ← (parts.dropLast).foldlM pgNamedStep ⟨[], [], [], []⟩
      .ok (s.chunks ++ (parts.getLastD default).pre, s.formats, some s.order, parts)
    else
      let (cs, fs) := pgAnon parts.dropLast
      .ok (cs ++ (parts.getLastD default).pre, fs, none, parts)

/-! ### The reconciler: `_validate_and_reorder_params` -/

/-- Caller-supplied parameters: an ordered sequence (not itself a text or
byte string) or a key-to-value mapping, modelled as an association list.
Individual values may be null (`none`). -/
inductive Params (V : Type) where
  | seq (vs : List (Option V))
  | mapp (m : List (List Nat × Option V))

/-- Byte-wise lexicographic comparison (Python `sorted` on the names). -/
def lexLe : List Nat → List Nat → Bool
  | [], _ => true
  | _ :: _, [] => false
  | a :: as, b :: bs => if a < b then true else if b < a then false else lexLe as bs

/-- Insert into a `lexLe`-sorted list. -/
def insertName (n : List Nat) : List (List Nat) → List (List Nat)
  | [] => [n]
  | m :: rest => if lexLe n m then n :: m :: rest else m :: insertName n rest

/-- Insertion sort by `lexLe` (Python `sorted`). -/
def sortNames : List (List Nat) → List (List Nat)
  | [] => []
  | n :: rest => insertName n (sortNames rest)

/-- `_validate_and_reorder_params`: check a parameter set against the parts
of a parsed query and return the values in destination order. -/
def validateAndReorder {V : Type} (parts : List QueryPart) (vars : Params V)
    (order : Option (List (List Nat))) : Except QueryError (List (Option V)) :=
  match vars with
  | .seq vs =>
    if vs.length ≠ parts.length - 1 then
      .error (.countMismatch (parts.length - 1) vs.length)
    else if vs.isEmpty = false ∧ (parts.headD default).item.isName then
      .error .namedRequireMapping
    else .ok vs
  | .mapp m =>
    if m.isEmpty = false ∧ parts.length > 1 ∧
        (parts.headD default).item.isName = false then
      .error .positionalRequireSequence
    else
      match (order.getD []).mapM (alookup m) with
      | some res => .ok res
      | none =>
        .error (.missingKeys (sortNames
          ((order.getD []).filter (fun n => (alookup m n).isNone))))

/-! ### The session object: `PostgresQuery` -/

/-- `TEXT_OID` from the source (the canonical text type identifier). -/
def TEXT_OID : Nat := 25

/-- `UNKNOWN_OID` from the source (the sentinel for null values). -/
def UNKNOWN_OID : Nat := 705

/-- The dumper-resolution capability of the external `Transformer`
collaborator: `get_dumper(value, format)` yields a dumper whose
`dump(value)` produces wire bytes and whose `oid` is the wire type
identifier; both are deterministic in `(value, format)`. -/
structure Transformer (V : Type) where
  dumpB : V → Format → List Nat
  oidOf : V → Format → Nat

/-- The serialized bytes computed by the `dump` loop: `dumper.dump(param)`
for a non-null value, a null marker otherwise. -/
def computeParams {V : Type} (tx : Transformer V) (fmts : List Format)
    (ps : List (Option V)) : List (Option (List Nat)) :=
  (List.range ps.length).map fun i =>
    (ps.getD i none).map fun v => tx.dumpB v (fmts.getD i .text)

/-- The type identifiers computed by the first `dump` call: `dumper.oid`
for a non-null value, `UNKNOWN_OID` otherwise. -/
def computeTypes {V : Type} (tx : Transformer V) (fmts : List Format)
    (ps : List (Option V)) : List Nat :=
  (List.range ps.length).map fun i =>
    match ps.getD i none with
    | some v => tx.oidOf v (fmts.getD i .text)
    | none => UNKNOWN_OID

/-- The mutable state of a `PostgresQuery` session: `query`, `params`,
`types`, `formats` (public results), `_order` and `_parts` (private).  In
`__init__` all are empty/`none` (`_parts` starts unset, modelled as
`none`). -/
structure PGQuery (V : Type) where
  query : List Nat := []
  params : Option (List (Option (List Nat))) := none
  types : Option (List Nat) := none
  formats : Option (List Format) := none
  order : Option (List (List Nat)) := none
  parts : Option (List QueryPart) := none

/-- `PostgresQuery.dump`: process a new set of variables on the same query.
With no variables, clears `params` and `types`; otherwise reconciles the
variables against `_parts`, recomputes the serialized `params`, and computes
`types` only if it is still unset.  Accessing `_parts` when it was never set
is an `AttributeError` in Python, and `self.formats` being `None` fails the
`assert` — both modelled as `missingState` (the reconciliation runs before
the assert, as in the source). -/
def PGQuery.dump {V : Type} (tx : Transformer V) (vars : Option (Params V))
    (s : PGQuery V) : Except QueryError (PGQuery V) :=
  match vars with
  | none => .ok { s with params := none, types := none }
  | some v =>
    match s.parts with
    | none => .error .missingState
    | some parts => do
      let ps ← validateAndReorder parts v s.order
      match s.formats with
      | none => .error .missingState
      | some fmts =>
        match s.types with
        | none =>
          .ok { s with params := some (computeParams tx fmts ps),
                       types := some (computeTypes tx fmts ps) }
        | some _ =>
          .ok { s with params := some (computeParams tx fmts ps) }

/-- `PostgresQuery.convert`: set up the query and parameters.  With
parameters present the query is rewritten by `_query2pg` and `query`,
`formats`, `_order`, `_parts` are all replaced; otherwise the query is
stored as-is (encoding-normalized) and only `formats` and `_order` are
reset.  Finally `dump` runs on the variables. -/
def PGQuery.convert {V : Type} (tx : Transformer V) (query : List Nat)
    (vars : Option (Params V)) (s : PGQuery V) : Except QueryError (PGQuery V) :=
  match vars with
  | some _ => do
    let (pq, fmts, ord, parts) ← query2pg query
    PGQuery.dump tx vars
      { s with query := pq, formats := some fmts, order := ord, parts := some parts }
  | none =>
    PGQuery.dump tx vars { s with query := query, formats := none, order := none }

/-- A concrete transformer for witnesses and counterexamples: serialized
bytes are the value itself, the reported type identifier is `23`. -/
def txTest : Transformer Int := ⟨fun v _ => [v.toNat], fun _ _ => 23⟩

/-- Distinct names in first-occurrence order, relative to an already-seen
set (the specification-level description of how `name_order` is built). -/
def firstOccur (seen : List (List Nat)) : List (List Nat) → List (List Nat)
  | [] => []
  | n :: ns =>
    if n ∈ seen then firstOccur seen ns
    else n :: firstOccur (n :: seen) ns

/-! ### Scanner lemmas -/

@[simp]
theorem scanGo_nil (pre : List Nat) : scanGo pre [] = [(pre, none)] := by
  rw [scanGo]

theorem scanGo_cons (pre : List Nat) (c : Nat) (rest : List Nat) :
    scanGo pre (c :: rest) =
      match matchAt (c :: rest) with
      | some (tok, n) => (pre, some tok) :: scanGo [] (rest.drop n)
      | none => scanGo (pre ++ [c]) rest := by
  rw [scanGo]

theorem matchAt_not_percent {c : Nat} (rest : List Nat) (hc : c ≠ 37) :
    matchAt (c :: rest) = none := by
  rw [matchAt]
  match rest with
  | [] => simp [alt1, alt2]
  | c2 :: rest2 => simp [alt1, alt2, hc]

theorem matchAt_single : matchAt [37] = none := rfl

theorem matchAt_pp (b : List Nat) :
    matchAt (37 :: 37 :: b) = some (⟨[37, 37], none⟩, 1) := by
  simp [matchAt, alt1, alt2]

theorem scanGo_append_lit {a : List Nat} (hn : 37 ∉ a) (pre l : List Nat) :
    scanGo pre (a ++ l) = scanGo (pre ++ a) l := by
  induction a generalizing pre with
  | nil => simp
  | cons c a ih =>
    have hc : c ≠ 37 := fun h => hn (by simp [h])
    have ha : 37 ∉ a := fun h => hn (List.mem_cons_of_mem _ h)
    rw [List.cons_append, scanGo_cons, matchAt_not_percent _ hc]
    simpa [List.append_assoc] using ih ha (pre ++ [c])

theorem scanGo_no_percent {l : List Nat} (hn : 37 ∉ l) (pre : List Nat) :
    scanGo pre l = [(pre ++ l, none)] := by
  have h := scanGo_append_lit hn pre []
  simpa [scanGo_nil] using h

example : splitQuery (strBytes "select %s, %s") =
    .ok [⟨strBytes "select ", .index 0, .text⟩,
         ⟨strBytes ", ", .index 1, .text⟩,
         ⟨[], .index 0, .text⟩] := by
  simp [splitQuery, buildParts, matchAt, alt1, alt2, findRParen, strBytes,
        firstWord, flattenPairs, isSpaceByte, scanGo_cons, PhItem.isName, Except.map]

example : splitQuery (strBytes "select %(a)s, %(a)s, %(b)b") =
    .ok [⟨strBytes "select ", .name (strBytes "a"), .text⟩,
         ⟨strBytes ", ", .name (strBytes "a"), .text⟩,
         ⟨strBytes ", ", .name (strBytes "b"), .binary⟩,
         ⟨[], .index 0, .text⟩] := by
  simp [splitQuery, buildParts, matchAt, alt1, alt2, findRParen, strBytes,
        firstWord, flattenPairs, isSpaceByte, scanGo_cons, PhItem.isName, Except.map]

example : splitQuery (strBytes "100%% done") =
    .ok [⟨strBytes "100% done", .index 0, .text⟩] := by
  simp [splitQuery, buildParts, matchAt, alt1, alt2, findRParen, strBytes,
        firstWord, flattenPairs, isSpaceByte, scanGo_cons, PhItem.isName, Except.map]

example : splitQuery (strBytes "select 100%") =
    .ok [⟨strBytes "select 100%", .index 0, .text⟩] := by
  simp [splitQuery, buildParts, matchAt, alt1, alt2, findRParen, strBytes,
        firstWord, flattenPairs, isSpaceByte, scanGo_cons, PhItem.isName, Except.map]

example : splitQuery (strBytes "select %s, %(a)s") =
    .error .mixedPlaceholders := by
  simp [splitQuery, buildParts, matchAt, alt1, alt2, findRParen, strBytes,
        firstWord, flattenPairs, isSpaceByte, scanGo_cons, PhItem.isName, Except.map]

example : splitQuery (strBytes "select %x") =
    .error (.badPlaceholder (strBytes "%x")) := by
  simp [splitQuery, buildParts, matchAt, alt1, alt2, findRParen, strBytes,
        firstWord, flattenPairs, isSpaceByte, scanGo_cons, PhItem.isName, Except.map]

example : splitQuery (strBytes "select %(ab") =
    .error (.incompletePlaceholder (strBytes "%(ab")) := by
  simp [splitQuery, buildParts, matchAt, alt1, alt2, findRParen, strBytes,
        firstWord, flattenPairs, isSpaceByte, scanGo_cons, PhItem.isName, Except.map]

example : splitQuery (strBytes "select % from x") =
    .error .incompletePercent := by
  simp [splitQuery, buildParts, matchAt, alt1, alt2, findRParen, strBytes,
        firstWord, flattenPairs, isSpaceByte, scanGo_cons, PhItem.isName, Except.map]

/-! ### Structural lemmas about the `_split_query` validation loop -/

theorem buildParts_nil (idx : Nat) (pt : Option Bool) :
    buildParts idx pt [] = .ok [] := by
  rw [buildParts]

theorem buildParts_last (idx : Nat) (pt : Option Bool) (pre : List Nat)
    (rest : List (List Nat × Option Token)) :
    buildParts idx pt ((pre, none) :: rest) = .ok [⟨pre, .index 0, .text⟩] := by
  rw [buildParts]

theorem buildParts_tok (idx : Nat) (pt : Option Bool) (pre : List Nat)
    (tok : Token) (rest : List (List Nat × Option Token)) :
    buildParts idx pt ((pre, some tok) :: rest) =
      if tok.g0 = [37, 37] then
        match rest with
        | [] => .ok []
        | (pre1, m1) :: rest2 =>
          buildParts idx pt ((pre ++ 37 :: pre1, m1) :: rest2)
      else if tok.g0 = [37, 40] then
        .error (.incompletePlaceholder (firstWord (tok.g0 ++ flattenPairs rest)))
      else if tok.g0 = [37, 32] then
        .error .incompletePercent
      else if ¬ (tok.g0.getLastD 0 = 98 ∨ tok.g0.getLastD 0 = 115) then
        .error (.badPlaceholder tok.g0)
      else
        let item : PhItem := match tok.g1 with
          | none => .index idx
          | some n => .name n
        match pt with
        | some b =>
          if b = item.isName then
            (buildParts (idx + 1) (some item.isName) rest).map
              (⟨pre, item, if tok.g0.getLastD 0 = 98 then .binary else .text⟩ :: ·)
          else .error .mixedPlaceholders
        | none =>
          (buildParts (idx + 1) (some item.isName) rest).map
            (⟨pre, item, if tok.g0.getLastD 0 = 98 then .binary else .text⟩ :: ·) := by
  rw [buildParts.eq_def]



/-- Combined structural invariants of the validation loop on success:
(1) with a committed placeholder kind, every non-terminal part has it;
(2) all non-terminal parts share one kind;
(3) every non-terminal anonymous part at position `k` carries item
`idx + k` — the occurrence indices are sequential. -/
theorem buildParts_props :
    ∀ (idx : Nat) (pt : Option Bool) (pairs : List (List Nat × Option Token))
      (parts : List QueryPart), buildParts idx pt pairs = .ok parts →
      ((∀ b, pt = some b → ∀ k, k + 1 < parts.length →
          (parts.getD k default).item.isName = b)
        ∧ (∀ k1 k2, k1 + 1 < parts.length → k2 + 1 < parts.length →
            (parts.getD k1 default).item.isName
              = (parts.getD k2 default).item.isName)
        ∧ (∀ k, k + 1 < parts.length →
            (parts.getD k default).item.isName = false →
            (parts.getD k default).item = .index (idx + k))) := by
  intro idx pt pairs
  induction idx, pt, pairs using buildParts.induct with
  | case1 idx pt =>
    intro parts h
    rw [buildParts_nil] at h
    cases h
    exact ⟨fun b _ k hk => by simp at hk, fun k1 k2 hk => by simp at hk,
           fun k hk => by simp at hk⟩
  | case2 idx pt pre rest =>
    intro parts h
    rw [buildParts_last] at h
    cases h
    exact ⟨fun b _ k hk => by simp at hk, fun k1 k2 hk => by simp at hk,
           fun k hk => by simp at hk⟩
  | case3 idx pt pre t h37 =>
    intro parts h
    rw [buildParts_tok, if_pos h37] at h
    cases h
    exact ⟨fun b _ k hk => by simp at hk, fun k1 k2 hk => by simp at hk,
           fun k hk => by simp at hk⟩
  | case4 idx pt pre t h37 pre1 m1 rest2 ih =>
    intro parts h
    rw [buildParts_tok, if_pos h37] at h
    exact ih parts h
  | case5 idx pt pre t rest h37 h40 =>
    intro parts h
    rw [buildParts_tok, if_neg h37, if_pos h40] at h
    cases h
  | case6 idx pt pre t rest h37 h40 h32 =>
    intro parts h
    rw [buildParts_tok, if_neg h37, if_neg h40, if_pos h32] at h
    cases h
  | case7 idx pt pre t rest h37 h40 h32 hbs =>
    intro parts h
    rw [buildParts_tok, if_neg h37, if_neg h40, if_neg h32, if_pos hbs] at h
    cases h
  | case8 idx pre t rest h37 h40 h32 hbs item ih =>
    intro parts h
    rw [buildParts_tok, if_neg h37, if_neg h40, if_neg h32, if_neg hbs] at h
    simp only [eq_self_iff_true, if_true] at h
    match hrec : buildParts (idx + 1) (some item.isName) rest with
    | .error e =>
      rw [hrec] at h
      simp [Except.map] at h
    | .ok parts2 =>
      rw [hrec] at h
      simp only [Except.map, Except.ok.injEq] at h
      subst h
      obtain ⟨ihA, ihB, ihC⟩ := ih parts2 hrec
      refine ⟨?_, ?_, ?_⟩
      · intro b hb k hk
        cases hb
        match k with
        | 0 => simp
        | j + 1 =>
          simp only [List.getD_cons_succ]
          exact ihA _ rfl j (by simpa using hk)
      · intro k1 k2 hk1 hk2
        have hall : ∀ k, k + 1 < (⟨pre, item, if t.g0.getLastD 0 = 98 then Format.binary else Format.text⟩ :: parts2 : List QueryPart).length →
            ((⟨pre, item, if t.g0.getLastD 0 = 98 then Format.binary else Format.text⟩ :: parts2 : List QueryPart).getD k default).item.isName = item.isName := by
          intro k hk
          match k with
          | 0 => simp
          | j + 1 =>
            simp only [List.getD_cons_succ]
            exact ihA _ rfl j (by simpa using hk)
        rw [hall k1 hk1, hall k2 hk2]
      · intro k hk hnm
        match k with
        | 0 =>
          simp only [List.getD_cons_zero] at hnm ⊢
          match hg1 : t.g1 with
          | none => simp
          | some n => rw [hg1] at hnm; simp [PhItem.isName] at hnm
        | j + 1 =>
          simp only [List.getD_cons_succ] at hnm ⊢
          have := ihC j (by simpa using hk) hnm
          rw [this]
          congr 1
          omega
  | case9 idx pre t rest h37 h40 h32 hbs item b hb =>
    intro parts h
    rw [buildParts_tok, if_neg h37, if_neg h40, if_neg h32, if_neg hbs] at h
    simp only [if_neg hb] at h
    cases h
  | case10 idx pre t rest h37 h40 h32 hbs item ih =>
    intro parts h
    rw [buildParts_tok, if_neg h37, if_neg h40, if_neg h32, if_neg hbs] at h
    simp only [] at h
    match hrec : buildParts (idx + 1) (some item.isName) rest with
    | .error e =>
      rw [hrec] at h
      simp [Except.map] at h
    | .ok parts2 =>
      rw [hrec] at h
      simp only [Except.map, Except.ok.injEq] at h
      subst h
      obtain ⟨ihA, ihB, ihC⟩ := ih parts2 hrec
      have hall : ∀ k, k + 1 < (⟨pre, item, if t.g0.getLastD 0 = 98 then Format.binary else Format.text⟩ :: parts2 : List QueryPart).length →
          ((⟨pre, item, if t.g0.getLastD 0 = 98 then Format.binary else Format.text⟩ :: parts2 : List QueryPart).getD k default).item.isName = item.isName := by
        intro k hk
        match k with
        | 0 => simp
        | j + 1 =>
          simp only [List.getD_cons_succ]
          exact ihA _ rfl j (by simpa using hk)
      refine ⟨?_, ?_, ?_⟩
      · intro b hb
        cases hb
      · intro k1 k2 hk1 hk2
        rw [hall k1 hk1, hall k2 hk2]
      · intro k hk hnm
        match k with
        | 0 =>
          simp only [List.getD_cons_zero] at hnm ⊢
          match hg1 : t.g1 with
          | none => simp
          | some n => rw [hg1] at hnm; simp [PhItem.isName] at hnm
        | j + 1 =>
          simp only [List.getD_cons_succ] at hnm ⊢
          have := ihC j (by simpa using hk) hnm
          rw [this]
          congr 1
          omega


/-- All non-terminal parts of a successfully split query share one
placeholder kind. -/
theorem splitQuery_uniform {q : List Nat} {parts : List QueryPart}
    (h : splitQuery q = .ok parts) :
    ∀ k1 k2, k1 + 1 < parts.length → k2 + 1 < parts.length →
      (parts.getD k1 default).item.isName
        = (parts.getD k2 default).item.isName :=
  (buildParts_props 0 none _ parts h).2.1

/-- Anonymous non-terminal parts of a successfully split query carry
sequential occurrence indices starting at 0. -/
theorem splitQuery_index {q : List Nat} {parts : List QueryPart}
    (h : splitQuery q = .ok parts) :
    ∀ k, k + 1 < parts.length → (parts.getD k default).item.isName = false →
      (parts.getD k default).item = .index k := by
  intro k hk hn
  simpa using (buildParts_props 0 none _ parts h).2.2 k hk hn

/-! ### Rewriter lemmas -/

theorem pgAnon_fst : ∀ l : List QueryPart,
    (pgAnon l).1 = (l.map fun p => p.pre ++ dollar (p.item.idx + 1)).flatten
  | [] => by simp [pgAnon]
  | p :: rest => by simp [pgAnon, pgAnon_fst rest]

theorem pgAnon_snd : ∀ l : List QueryPart, (pgAnon l).2 = l.map (·.format)
  | [] => by simp [pgAnon]
  | p :: rest => by simp [pgAnon, pgAnon_snd rest]

theorem query2pg_anon {q : List Nat} {p0 : QueryPart} {rest : List QueryPart}
    (h : splitQuery q = .ok (p0 :: rest)) (hname : p0.item.isName = false) :
    query2pg q =
      .ok ((pgAnon ((p0 :: rest).dropLast)).1 ++ ((p0 :: rest).getLastD default).pre,
           (pgAnon ((p0 :: rest).dropLast)).2, none, p0 :: rest) := by
  rw [query2pg, h]
  simp [Bind.bind, Except.bind, hname]

theorem query2pg_named {q : List Nat} {p0 : QueryPart} {rest : List QueryPart}
    {s : NamedState}
    (h : splitQuery q = .ok (p0 :: rest)) (hname : p0.item.isName = true)
    (hfold : ((p0 :: rest).dropLast).foldlM pgNamedStep ⟨[], [], [], []⟩ = .ok s) :
    query2pg q =
      .ok (s.chunks ++ ((p0 :: rest).getLastD default).pre, s.formats,
           some s.order, p0 :: rest) := by
  rw [query2pg, h]
  simp [Bind.bind, Except.bind, hname, hfold]

theorem alookup_eq_none {β : Type} (m : List (List Nat × β)) (n : List Nat) :
    alookup m n = none ↔ n ∉ m.map Prod.fst := by
  induction m with
  | nil => simp [alookup]
  | cons kv rest ih =>
    obtain ⟨k, v⟩ := kv
    by_cases hk : k = n
    · subst hk
      simp [alookup]
    · simp [alookup, hk, ih, Ne.symm hk]

theorem firstOccur_congr : ∀ (l : List (List Nat)) {s1 s2 : List (List Nat)},
    (∀ x, x ∈ s1 ↔ x ∈ s2) → firstOccur s1 l = firstOccur s2 l := by
  intro l
  induction l with
  | nil => intro s1 s2 h; simp [firstOccur]
  | cons n ns ih =>
    intro s1 s2 h
    by_cases hn : n ∈ s1
    · rw [firstOccur, firstOccur, if_pos hn, if_pos ((h n).mp hn)]
      exact ih h
    · rw [firstOccur, firstOccur, if_neg hn, if_neg (fun hx => hn ((h n).mpr hx))]
      have hrec := @ih (n :: s1) (n :: s2) (fun x => by simp [h x])
      rw [hrec]

/-- The named-branch fold builds `order` as the distinct names in
first-occurrence order (relative to the names already seen), keeps `seen`'s
keys equal to `order`'s extension, and appends exactly one format per
appended name. -/
theorem foldlM_named : ∀ (ps : List QueryPart) (s s' : NamedState),
    List.foldlM pgNamedStep s ps = .ok s' →
      s'.order = s.order ++ firstOccur (s.seen.map Prod.fst) (ps.map (·.item.nm))
      ∧ s'.seen.map Prod.fst
          = s.seen.map Prod.fst ++ firstOccur (s.seen.map Prod.fst) (ps.map (·.item.nm))
      ∧ s'.formats.length + s.order.length = s'.order.length + s.formats.length := by
  intro ps
  induction ps with
  | nil =>
    intro s s' h
    simp only [List.foldlM_nil] at h
    cases h
    exact ⟨by simp [firstOccur], by simp [firstOccur], by omega⟩
  | cons p ps ih =>
    intro s s' h
    rw [List.foldlM_cons] at h
    match hstep : pgNamedStep s p with
    | .error e =>
      rw [hstep] at h
      simp [Bind.bind, Except.bind] at h
    | .ok s1 =>
      rw [hstep] at h
      simp only [Bind.bind, Except.bind] at h
      obtain ⟨hord, hkeys, hlen⟩ := ih s1 s' h
      rw [pgNamedStep] at hstep
      match hlk : alookup s.seen p.item.nm with
      | none =>
        rw [hlk] at hstep
        cases hstep
        have hmem : p.item.nm ∉ s.seen.map Prod.fst :=
          (alookup_eq_none _ _).mp hlk
        refine ⟨?_, ?_, ?_⟩
        · rw [hord]
          simp only [List.map_cons, firstOccur, if_neg hmem]
          rw [List.map_append] at *
          simp only [List.map_cons, List.map_nil]
          rw [List.append_assoc]
          congr 1
          rw [List.singleton_append]
          congr 1
          exact firstOccur_congr _ (fun x => by simp [or_comm])
        · rw [hkeys]
          simp only [List.map_cons, firstOccur, if_neg hmem]
          rw [List.map_append]
          simp only [List.map_cons, List.map_nil]
          rw [List.append_assoc]
          congr 1
          rw [List.singleton_append]
          congr 1
          exact firstOccur_congr _ (fun x => by simp [or_comm])
        · simp only [List.length_append, List.length_cons, List.length_nil] at hlen ⊢
          omega
      | some pf =>
        obtain ⟨ph, f⟩ := pf
        rw [hlk] at hstep
        simp only [] at hstep
        by_cases hf : f ≠ p.format
        · rw [if_pos hf] at hstep
          cases hstep
        · rw [if_neg hf] at hstep
          cases hstep
          have hmem : p.item.nm ∈ s.seen.map Prod.fst := by
            by_contra hC
            rw [← alookup_eq_none] at hC
            rw [hC] at hlk
            cases hlk
          refine ⟨?_, ?_, ?_⟩
          · rw [hord]
            simp only [List.map_cons, firstOccur, if_pos hmem]
          · rw [hkeys]
            simp only [List.map_cons, firstOccur, if_pos hmem]
          · simpa using hlen


/-- `splitQuery` failure propagates through `query2pg`. -/
theorem query2pg_split_error {q : List Nat} {e : QueryError}
    (h : splitQuery q = .error e) : query2pg q = .error e := by
  rw [query2pg, h]
  rfl

/-- An empty parts list (unreachable from the scanner) gives the dummy
result. -/
theorem query2pg_of_nil {q : List Nat} (h : splitQuery q = .ok []) :
    query2pg q = .ok ([], [], none, []) := by
  rw [query2pg, h]
  rfl

/-- A fold failure in the named branch propagates through `query2pg`. -/
theorem query2pg_named_error {q : List Nat} {p0 : QueryPart}
    {rest : List QueryPart} {e : QueryError}
    (h : splitQuery q = .ok (p0 :: rest)) (hname : p0.item.isName = true)
    (hfold : ((p0 :: rest).dropLast).foldlM pgNamedStep ⟨[], [], [], []⟩ = .error e) :
    query2pg q = .error e := by
  rw [query2pg, h]
  simp [Bind.bind, Except.bind, hname, hfold]

/-! ### Reconciler lemmas -/

theorem mapM_alookup_of_missing {V : Type} (m : List (List Nat × Option V)) :
    ∀ (names : List (List Nat)), (∃ n ∈ names, alookup m n = none) →
      names.mapM (alookup m) = none := by
  intro names
  induction names with
  | nil => intro h; simp at h
  | cons n ns ih =>
    intro h
    obtain ⟨x, hx, hlk⟩ := h
    rw [List.mapM_cons]
    rcases List.mem_cons.mp hx with hxe | hxs
    · subst hxe
      rw [hlk]
      rfl
    · match h1 : alookup m n with
      | none => rfl
      | some v =>
        rw [ih ⟨x, hxs, hlk⟩]
        rfl

theorem mapM_alookup_of_present {V : Type} (m : List (List Nat × Option V)) :
    ∀ (names : List (List Nat)), (∀ n ∈ names, (alookup m n).isSome) →
      names.mapM (alookup m)
        = some (names.map fun n => (alookup m n).getD none) := by
  intro names
  induction names with
  | nil => intro _; rfl
  | cons n ns ih =>
    intro h
    rw [List.mapM_cons]
    match h1 : alookup m n with
    | none =>
      have := h n (List.mem_cons_self n ns)
      rw [h1] at this
      cases this
    | some v =>
      rw [ih (fun x hx => h x (List.mem_cons_of_mem n hx))]
      simp [h1]


/-! ### Claim theorems -/

/-- C3 counterexample: a query ending in a bare `%` does not fail — the
trailing `%` is simply not matched by the tokenizer, so parsing succeeds
with the `%` kept as literal text. -/
theorem claim_C3_counterexample :
    (splitQuery (strBytes "select 100%")).isOk = true
    ∧ splitQuery (strBytes "select 100%")
        = .ok [⟨strBytes "select 100%", .index 0, .text⟩] := by
  constructor
  · simp [splitQuery, buildParts, matchAt, alt1, alt2, findRParen, strBytes,
          scanGo_cons, Except.isOk, Except.toBool]
  · simp [splitQuery, buildParts, matchAt, alt1, alt2, findRParen, strBytes,
          scanGo_cons]

/-- C3 (amended): a query ending with a bare `%` (with no other `%` in it)
parses successfully: the trailing `%` is left as literal text in the single
terminal part and consumes no placeholder slot. -/
theorem claim_C3 {a : List Nat} (ha : 37 ∉ a) :
    splitQuery (a ++ [37]) = .ok [⟨a ++ [37], .index 0, .text⟩] := by
  rw [splitQuery, scanGo_append_lit ha, scanGo_cons, matchAt_single]
  simp [buildParts_last]

theorem claim_C3_witness :
    37 ∉ strBytes "select 100"
    ∧ splitQuery (strBytes "select 100" ++ [37])
        = .ok [⟨strBytes "select 100" ++ [37], .index 0, .text⟩] :=
  ⟨by decide, claim_C3 (by decide)⟩

/-- C7 (amended): `convert` with null parameters stores the
encoding-normalized query and clears `formats`, `_order`, `params` and
`types`, but leaves `_parts` untouched (the source only assigns
`self.formats = self._order = None`). -/
theorem claim_C7 {V : Type} (tx : Transformer V) (q : List Nat)
    (s : PGQuery V) :
    PGQuery.convert tx q none s
      = .ok { s with query := q, formats := none, order := none,
                     params := none, types := none } := rfl

/-- C7 counterexample: after a successful `convert` with parameters,
a second `convert` with null parameters leaves the stale `_parts` in the
session instead of clearing them. -/
theorem claim_C7_counterexample :
    (((PGQuery.convert txTest (strBytes "select %s") (some (.seq [some 1])) {}) >>=
        (PGQuery.convert txTest (strBytes "select 1") none)).map (·.parts)
      = .ok (some [⟨strBytes "select ", .index 0, .text⟩, ⟨[], .index 0, .text⟩]))
    ∧ some [(⟨strBytes "select ", .index 0, .text⟩ : QueryPart), ⟨[], .index 0, .text⟩]
        ≠ (none : Option (List QueryPart)) := by
  constructor
  · simp [PGQuery.convert, PGQuery.dump, query2pg, splitQuery, buildParts, matchAt,
          alt1, alt2, findRParen, strBytes, scanGo_cons, PhItem.isName, Except.map,
          pgAnon, dollar, natToBytes, natDigits, PhItem.idx, Bind.bind, Except.bind,
          pure, Except.pure, validateAndReorder, computeParams, computeTypes, txTest,
          List.range, List.range.loop, List.mapM, List.mapM.loop, List.getD]
  · simp

/-- C8: for a sequence parameter set, reconciliation fails with a
count-mismatch error whenever the sequence's length differs from the number
of non-terminal parts (too few or too many), and when the length matches an
anonymous-placeholder query the sequence is returned unchanged. -/
theorem claim_C8 {V : Type} (parts : List QueryPart) (vs : List (Option V))
    (order : Option (List (List Nat))) :
    (vs.length ≠ parts.length - 1 →
      validateAndReorder parts (.seq vs) order
        = .error (.countMismatch (parts.length - 1) vs.length))
    ∧ (vs.length = parts.length - 1 →
        (parts.headD default).item.isName = false →
        validateAndReorder parts (.seq vs) order = .ok vs) := by
  constructor
  · intro hne
    simp [validateAndReorder, hne]
  · intro he hn
    rw [validateAndReorder.eq_def]
    simp only []
    rw [if_neg (by simp [he]),
        if_neg (fun hcon => by rw [hn] at hcon; simp at hcon)]

theorem claim_C8_witness :
    validateAndReorder (V := Int)
      [⟨strBytes "select ", .index 0, .text⟩, ⟨strBytes ", ", .index 1, .text⟩,
       ⟨[], .index 0, .text⟩]
      (.seq [some 1]) none = .error (.countMismatch 2 1)
    ∧ validateAndReorder (V := Int)
        [⟨strBytes "select ", .index 0, .text⟩, ⟨strBytes ", ", .index 1, .text⟩,
         ⟨[], .index 0, .text⟩]
        (.seq [some 1, some 2, some 3]) none = .error (.countMismatch 2 3)
    ∧ validateAndReorder (V := Int)
        [⟨strBytes "select ", .index 0, .text⟩, ⟨strBytes ", ", .index 1, .text⟩,
         ⟨[], .index 0, .text⟩]
        (.seq [some 1, some 2]) none = .ok [some 1, some 2] :=
  ⟨(claim_C8 _ _ _).1 (by decide),
   (claim_C8 _ _ _).1 (by decide),
   (claim_C8 _ _ _).2 (by decide) (by decide)⟩

/-- C10: a query with zero placeholders (a single terminal part) accepts
any mapping — even a non-empty one — yielding an empty parameter list,
while a non-empty sequence fails with a count-mismatch error. -/
theorem claim_C10 {V : Type} (t : QueryPart) (m : List (List Nat × Option V))
    (vs : List (Option V)) :
    validateAndReorder [t] (.mapp m) none = .ok []
    ∧ (vs ≠ [] → validateAndReorder [t] (.seq vs) none
        = .error (.countMismatch 0 vs.length)) := by
  constructor
  · simp [validateAndReorder, List.mapM.loop]
  · intro hne
    have hl : vs.length ≠ 0 := by simpa using hne
    simp [validateAndReorder, hl]

theorem claim_C10_witness :
    validateAndReorder (V := Int) [⟨strBytes "select 1", .index 0, .text⟩]
      (.mapp [(strBytes "a", some 1)]) none = .ok []
    ∧ validateAndReorder (V := Int) [⟨strBytes "select 1", .index 0, .text⟩]
        (.seq [some 1]) none = .error (.countMismatch 0 1) :=
  ⟨(claim_C10 _ _ []).1, (claim_C10 _ [] _).2 (by decide)⟩

/-- C9: a `%%` is unescaped to a single `%` merged into the surrounding
literal text and consumes no placeholder slot: the tokenizer always matches
`%%` as the escape token, the validation loop merges that token's
neighbours around a single `%` without emitting a part, and a query that is
literal text around one `%%` rewrites to the literal text with an empty
format list, no name order, and only the terminal part. -/
theorem claim_C9 :
    (∀ (b : List Nat), matchAt (37 :: 37 :: b) = some (⟨[37, 37], none⟩, 1))
    ∧ (∀ (idx : Nat) (pt : Option Bool) (pre pre1 : List Nat)
        (m1 : Option Token) (rest : List (List Nat × Option Token)),
        buildParts idx pt ((pre, some ⟨[37, 37], none⟩) :: (pre1, m1) :: rest)
          = buildParts idx pt ((pre ++ 37 :: pre1, m1) :: rest))
    ∧ (∀ (a b : List Nat), 37 ∉ a → 37 ∉ b →
        query2pg (a ++ 37 :: 37 :: b)
          = .ok (a ++ 37 :: b, [], none, [⟨a ++ 37 :: b, .index 0, .text⟩])) := by
  refine ⟨matchAt_pp, ?_, ?_⟩
  · intro idx pt pre pre1 m1 rest
    rw [buildParts_tok]
    simp
  · intro a b ha hb
    have hscan : scanGo [] (a ++ 37 :: 37 :: b)
        = [(a, some ⟨[37, 37], none⟩), (b, none)] := by
      rw [scanGo_append_lit ha, scanGo_cons, matchAt_pp]
      simp [scanGo_no_percent hb]
    have hsplit : splitQuery (a ++ 37 :: 37 :: b)
        = .ok [⟨a ++ 37 :: b, .index 0, .text⟩] := by
      rw [splitQuery, hscan, buildParts_tok]
      simp [buildParts_last]
    rw [query2pg_anon hsplit rfl]
    simp [pgAnon]

theorem claim_C9_witness :
    query2pg (strBytes "100%% done")
      = .ok (strBytes "100% done", [], none,
             [⟨strBytes "100% done", .index 0, .text⟩]) := by
  have heq : strBytes "100%% done" = strBytes "100" ++ 37 :: 37 :: strBytes " done" := by
    decide
  have heq2 : strBytes "100% done" = strBytes "100" ++ 37 :: strBytes " done" := by
    decide
  rw [heq, heq2]
  exact claim_C9.2.2 _ _ (by decide) (by decide)


/-- C4: the `types` list is populated only by the first `dump` call with
non-null parameters; every later `dump` call with non-null parameters leaves
`types` — and every other field except `params` — unchanged and only
recomputes the serialized `params`; a `dump` call with null parameters sets
both `params` and `types` back to null. -/
theorem claim_C4 {V : Type} (tx : Transformer V) (s : PGQuery V) (v : Params V) :
    (∀ ts s', s.types = some ts → PGQuery.dump tx (some v) s = .ok s' →
      s'.types = some ts ∧ s'.query = s.query ∧ s'.formats = s.formats
        ∧ s'.order = s.order ∧ s'.parts = s.parts
        ∧ ∃ parts fmts ps, s.parts = some parts ∧ s.formats = some fmts
            ∧ validateAndReorder parts v s.order = .ok ps
            ∧ s'.params = some (computeParams tx fmts ps))
    ∧ (∀ s', s.types = none → PGQuery.dump tx (some v) s = .ok s' →
        ∃ parts fmts ps, s.parts = some parts ∧ s.formats = some fmts
          ∧ validateAndReorder parts v s.order = .ok ps
          ∧ s'.types = some (computeTypes tx fmts ps)
          ∧ s'.params = some (computeParams tx fmts ps))
    ∧ PGQuery.dump tx none s = .ok { s with params := none, types := none } := by
  refine ⟨?_, ?_, rfl⟩
  · intro ts s' hts h
    rw [PGQuery.dump.eq_def] at h
    simp only [] at h
    match hparts : s.parts with
    | none => rw [hparts] at h; simp at h
    | some parts =>
      rw [hparts] at h
      simp only [] at h
      match hval : validateAndReorder parts v s.order with
      | .error e =>
        rw [hval] at h
        simp [Bind.bind, Except.bind] at h
      | .ok ps =>
        rw [hval] at h
        simp only [Bind.bind, Except.bind] at h
        match hf : s.formats with
        | none => rw [hf] at h; simp at h
        | some fmts =>
          rw [hf] at h
          simp only [] at h
          rw [hts] at h
          simp only [] at h
          cases h
          exact ⟨rfl, rfl, rfl, rfl, rfl, parts, fmts, ps, rfl, rfl, hval, rfl⟩
  · intro s' hts h
    rw [PGQuery.dump.eq_def] at h
    simp only [] at h
    match hparts : s.parts with
    | none => rw [hparts] at h; simp at h
    | some parts =>
      rw [hparts] at h
      simp only [] at h
      match hval : validateAndReorder parts v s.order with
      | .error e =>
        rw [hval] at h
        simp [Bind.bind, Except.bind] at h
      | .ok ps =>
        rw [hval] at h
        simp only [Bind.bind, Except.bind] at h
        match hf : s.formats with
        | none => rw [hf] at h; simp at h
        | some fmts =>
          rw [hf] at h
          simp only [] at h
          rw [hts] at h
          simp only [] at h
          cases h
          exact ⟨parts, fmts, ps, rfl, rfl, hval, rfl, rfl⟩

theorem claim_C4_witness :
    ∃ s1 : PGQuery Int,
      PGQuery.dump txTest
        (some (.seq [some 5]))
        { query := strBytes "select $1", params := none, types := some [99],
          formats := some [.text], order := none,
          parts := some [⟨strBytes "select ", .index 0, .text⟩,
                         ⟨[], .index 0, .text⟩] } = .ok s1
      ∧ s1.types = some [99] := by
  have h : PGQuery.dump txTest (some (Params.seq [some 5]))
      { query := strBytes "select $1", params := none, types := some [99],
        formats := some [.text], order := none,
        parts := some [⟨strBytes "select ", .index 0, .text⟩,
                       ⟨[], .index 0, .text⟩] }
      = .ok { query := strBytes "select $1",
              params := some [some [5]], types := some [99],
              formats := some [.text], order := none,
              parts := some [⟨strBytes "select ", .index 0, .text⟩,
                             ⟨[], .index 0, .text⟩] } := by
    simp [PGQuery.dump, validateAndReorder, computeParams, txTest, PhItem.isName,
          List.range, List.range.loop, Bind.bind, Except.bind, List.getD]
  refine ⟨_, h, ?_⟩
  exact ((claim_C4 txTest _ (.seq [some 5])).1 [99] _ rfl h).1

/-- C5: every successfully parsed query satisfies the invariant that all
non-terminal parts carry the same kind of item — all occurrence indices or
all names, never mixed — and a query mixing anonymous and named
placeholders fails with the mixed-placeholder validation error. -/
theorem claim_C5 :
    (∀ (q : List Nat) (parts : List QueryPart), splitQuery q = .ok parts →
      ∀ k1 k2, k1 + 1 < parts.length → k2 + 1 < parts.length →
        (parts.getD k1 default).item.isName
          = (parts.getD k2 default).item.isName)
    ∧ splitQuery (strBytes "select %s, %(a)s") = .error .mixedPlaceholders
    ∧ (∀ (V : Type) (tx : Transformer V) (params : Params V) (s : PGQuery V),
        PGQuery.convert tx (strBytes "select %s, %(a)s") (some params) s
          = .error .mixedPlaceholders) := by
  have hmix : splitQuery (strBytes "select %s, %(a)s")
      = .error .mixedPlaceholders := by
    simp [splitQuery, buildParts, matchAt, alt1, alt2, findRParen, strBytes,
          scanGo_cons, PhItem.isName, Except.map]
  refine ⟨?_, hmix, ?_⟩
  · intro q parts h
    exact splitQuery_uniform h
  · intro V tx params s
    rw [PGQuery.convert.eq_def]
    simp only []
    rw [query2pg_split_error hmix]
    rfl

theorem claim_C5_witness :
    (([⟨strBytes "select ", .name (strBytes "a"), .text⟩,
       ⟨strBytes ", ", .name (strBytes "b"), .binary⟩,
       ⟨[], .index 0, .text⟩] : List QueryPart).getD 0 default).item.isName
      = (([⟨strBytes "select ", .name (strBytes "a"), .text⟩,
           ⟨strBytes ", ", .name (strBytes "b"), .binary⟩,
           ⟨[], .index 0, .text⟩] : List QueryPart).getD 1 default).item.isName :=
  claim_C5.1 (strBytes "select %(a)s, %(b)b") _
    (by simp [splitQuery, buildParts, matchAt, alt1, alt2, findRParen, strBytes,
              scanGo_cons, PhItem.isName, Except.map])
    0 1 (by decide) (by decide)

/-- C6: for a named-placeholder query with mapping parameters, if some name
of `name_order` is absent from the mapping, reconciliation fails with one
error listing every missing name, sorted; if all names are present, the
result is the mapping values looked up in `name_order` order. -/
theorem claim_C6 {V : Type} (parts : List QueryPart)
    (m : List (List Nat × Option V)) (order : List (List Nat))
    (hname : (parts.headD default).item.isName = true) :
    ((∃ n ∈ order, alookup m n = none) →
      validateAndReorder parts (.mapp m) (some order)
        = .error (.missingKeys
            (sortNames (order.filter fun n => (alookup m n).isNone))))
    ∧ ((∀ n ∈ order, (alookup m n).isSome) →
        validateAndReorder parts (.mapp m) (some order)
          = .ok (order.map fun n => (alookup m n).getD none)) := by
  have hkind : ¬ (m.isEmpty = false ∧ parts.length > 1 ∧
      (parts.headD default).item.isName = false) := by
    intro hcon
    rw [hname] at hcon
    simp at hcon
  constructor
  · intro hmiss
    rw [validateAndReorder.eq_def]
    simp only []
    rw [if_neg hkind]
    simp only [Option.getD_some]
    rw [mapM_alookup_of_missing m order hmiss]
  · intro hpres
    rw [validateAndReorder.eq_def]
    simp only []
    rw [if_neg hkind]
    simp only [Option.getD_some]
    rw [mapM_alookup_of_present m order hpres]

theorem claim_C6_witness :
    validateAndReorder (V := Int)
      [⟨strBytes "select ", .name (strBytes "b"), .text⟩,
       ⟨strBytes ", ", .name (strBytes "a"), .text⟩, ⟨[], .index 0, .text⟩]
      (.mapp []) (some [strBytes "b", strBytes "a"])
      = .error (.missingKeys [strBytes "a", strBytes "b"])
    ∧ validateAndReorder (V := Int)
        [⟨strBytes "select ", .name (strBytes "a"), .text⟩,
         ⟨strBytes ", ", .name (strBytes "b"), .text⟩, ⟨[], .index 0, .text⟩]
        (.mapp [(strBytes "a", some 1)]) (some [strBytes "a", strBytes "b"])
        = .error (.missingKeys [strBytes "b"])
    ∧ validateAndReorder (V := Int)
        [⟨strBytes "select ", .name (strBytes "a"), .text⟩,
         ⟨strBytes ", ", .name (strBytes "b"), .text⟩, ⟨[], .index 0, .text⟩]
        (.mapp [(strBytes "b", some 2), (strBytes "a", some 1)])
        (some [strBytes "a", strBytes "b"])
        = .ok [some 1, some 2] := by
  refine ⟨?_, ?_, ?_⟩
  · have h := (claim_C6 (V := Int)
      [⟨strBytes "select ", .name (strBytes "b"), .text⟩,
       ⟨strBytes ", ", .name (strBytes "a"), .text⟩, ⟨[], .index 0, .text⟩]
      [] [strBytes "b", strBytes "a"] (by decide)).1
      ⟨strBytes "b", by decide, by decide⟩
    simpa [sortNames, insertName, lexLe, alookup, strBytes] using h
  · have h := (claim_C6 (V := Int)
      [⟨strBytes "select ", .name (strBytes "a"), .text⟩,
       ⟨strBytes ", ", .name (strBytes "b"), .text⟩, ⟨[], .index 0, .text⟩]
      [(strBytes "a", some 1)] [strBytes "a", strBytes "b"] (by decide)).1
      ⟨strBytes "b", by decide, by decide⟩
    simpa [sortNames, insertName, lexLe, alookup, strBytes] using h
  · have h := (claim_C6 (V := Int)
      [⟨strBytes "select ", .name (strBytes "a"), .text⟩,
       ⟨strBytes ", ", .name (strBytes "b"), .text⟩, ⟨[], .index 0, .text⟩]
      [(strBytes "b", some 2), (strBytes "a", some 1)]
      [strBytes "a", strBytes "b"] (by decide)).2
      (by decide)
    simpa [alookup, strBytes] using h


/-- C2: in an anonymous-placeholder query (no name order produced) every
placeholder occurrence gets its own sequential destination marker in
textual order — occurrences are never deduplicated: the non-terminal items
are `0, 1, 2, …` in order, the format list has exactly one entry per
occurrence in the same order, and the rewritten query interleaves each
literal prefix with its `$(k+1)` marker. -/
theorem claim_C2 :
    (∀ (q chunks : List Nat) (fmts : List Format) (parts : List QueryPart),
      query2pg q = .ok (chunks, fmts, none, parts) →
        fmts = (parts.dropLast).map (·.format)
        ∧ (∀ k, k + 1 < parts.length →
            (parts.getD k default).item = .index k)
        ∧ chunks = ((parts.dropLast).map fun p =>
            p.pre ++ dollar (p.item.idx + 1)).flatten
            ++ (parts.getLastD default).pre)
    ∧ query2pg (strBytes "select %s, %s")
        = .ok (strBytes "select $1, $2", [.text, .text], none,
               [⟨strBytes "select ", .index 0, .text⟩,
                ⟨strBytes ", ", .index 1, .text⟩,
                ⟨[], .index 0, .text⟩]) := by
  constructor
  · intro q chunks fmts parts h
    match hsplit : splitQuery q with
    | .error e =>
      rw [query2pg_split_error hsplit] at h
      simp at h
    | .ok parts2 =>
      match parts2 with
      | [] =>
        rw [query2pg_of_nil hsplit] at h
        simp only [Except.ok.injEq, Prod.mk.injEq] at h
        obtain ⟨h1, h2, _, h4⟩ := h
        subst h1; subst h2; subst h4
        refine ⟨rfl, ?_, rfl⟩
        intro k hk
        simp at hk
      | p0 :: rest =>
        by_cases hname : p0.item.isName
        · match hfold : ((p0 :: rest).dropLast).foldlM pgNamedStep
              ⟨[], [], [], []⟩ with
          | .error e =>
            rw [query2pg_named_error hsplit hname hfold] at h
            simp at h
          | .ok st =>
            rw [query2pg_named hsplit hname hfold] at h
            simp at h
        · have hname2 : p0.item.isName = false := by simpa using hname
          rw [query2pg_anon hsplit hname2] at h
          simp only [Except.ok.injEq, Prod.mk.injEq] at h
          obtain ⟨h1, h2, _, h4⟩ := h
          subst h1; subst h2; subst h4
          refine ⟨pgAnon_snd _, ?_, (congrArg (· ++ _) (pgAnon_fst _))⟩
          intro k hk
          have hk0 : ((p0 :: rest).getD k default).item.isName = false := by
            have hu := splitQuery_uniform hsplit k 0 hk (by omega)
            rw [hu]
            simpa using hname2
          exact splitQuery_index hsplit k hk hk0
  · simp [query2pg, splitQuery, buildParts, matchAt, alt1, alt2, findRParen,
          strBytes, scanGo_cons, PhItem.isName, Except.map, pgAnon, dollar,
          natToBytes, natDigits, PhItem.idx, Bind.bind, Except.bind, pure,
          Except.pure]

theorem claim_C2_witness :
    ([Format.text, Format.text]
        = (([⟨strBytes "select ", .index 0, .text⟩,
             ⟨strBytes ", ", .index 1, .text⟩,
             ⟨[], .index 0, .text⟩] : List QueryPart).dropLast).map (·.format))
    ∧ (([⟨strBytes "select ", .index 0, .text⟩,
         ⟨strBytes ", ", .index 1, .text⟩,
         ⟨[], .index 0, .text⟩] : List QueryPart).getD 1 default).item
        = .index 1 :=
  have h := (claim_C2.1 (strBytes "select %s, %s") (strBytes "select $1, $2")
    [.text, .text]
    [⟨strBytes "select ", .index 0, .text⟩, ⟨strBytes ", ", .index 1, .text⟩,
     ⟨[], .index 0, .text⟩] claim_C2.2)
  ⟨h.1, h.2.1 1 (by decide)⟩

/-- C1: in a named-placeholder query destination indices are assigned in
first-occurrence order — `name_order` is the distinct names in first
occurrence order with one format entry per distinct name; a fresh name gets
the next marker `$(#seen+1)` and appends its name and format, while a
repeat occurrence of a seen name reuses the stored marker and appends
nothing. -/
theorem claim_C1 :
    (∀ (q chunks : List Nat) (fmts : List Format) (ord : List (List Nat))
        (parts : List QueryPart),
      query2pg q = .ok (chunks, fmts, some ord, parts) →
        ord = firstOccur [] ((parts.dropLast).map (·.item.nm))
        ∧ fmts.length = ord.length)
    ∧ (∀ (s : NamedState) (p : QueryPart),
        alookup s.seen p.item.nm = none →
        pgNamedStep s p
          = .ok ⟨s.seen ++ [(p.item.nm, (dollar (s.seen.length + 1), p.format))],
                 s.order ++ [p.item.nm],
                 s.chunks ++ p.pre ++ dollar (s.seen.length + 1),
                 s.formats ++ [p.format]⟩)
    ∧ (∀ (s : NamedState) (p : QueryPart) (ph : List Nat),
        alookup s.seen p.item.nm = some (ph, p.format) →
        pgNamedStep s p = .ok { s with chunks := s.chunks ++ p.pre ++ ph })
    ∧ query2pg (strBytes "select %(a)s, %(a)s, %(b)b")
        = .ok (strBytes "select $1, $1, $2", [.text, .binary],
               some [strBytes "a", strBytes "b"],
               [⟨strBytes "select ", .name (strBytes "a"), .text⟩,
                ⟨strBytes ", ", .name (strBytes "a"), .text⟩,
                ⟨strBytes ", ", .name (strBytes "b"), .binary⟩,
                ⟨[], .index 0, .text⟩]) := by
  refine ⟨?_, ?_, ?_, ?_⟩
  · intro q chunks fmts ord parts h
    match hsplit : splitQuery q with
    | .error e =>
      rw [query2pg_split_error hsplit] at h
      simp at h
    | .ok parts2 =>
      match parts2 with
      | [] =>
        rw [query2pg_of_nil hsplit] at h
        simp at h
      | p0 :: rest =>
        by_cases hname : p0.item.isName
        · match hfold : ((p0 :: rest).dropLast).foldlM pgNamedStep
              ⟨[], [], [], []⟩ with
          | .error e =>
            rw [query2pg_named_error hsplit hname hfold] at h
            simp at h
          | .ok st =>
            rw [query2pg_named hsplit hname hfold] at h
            simp only [Except.ok.injEq, Prod.mk.injEq, Option.some_inj] at h
            obtain ⟨h1, h2, h3, h4⟩ := h
            subst h2; subst h3; subst h4
            obtain ⟨hord, hkeys, hlen⟩ := foldlM_named _ ⟨[], [], [], []⟩ st hfold
            constructor
            · simpa using hord
            · simpa using hlen
        · have hname2 : p0.item.isName = false := by simpa using hname
          rw [query2pg_anon hsplit hname2] at h
          simp at h
  · intro s p hlk
    rw [pgNamedStep, hlk]
  · intro s p ph hlk
    rw [pgNamedStep, hlk]
    simp
  · simp [query2pg, splitQuery, buildParts, matchAt, alt1, alt2, findRParen,
          strBytes, scanGo_cons, PhItem.isName, PhItem.nm, Except.map, pgAnon,
          dollar, natToBytes, natDigits, PhItem.idx, Bind.bind, Except.bind,
          pure, Except.pure, List.foldlM, pgNamedStep, alookup]

theorem claim_C1_witness :
    ([strBytes "a", strBytes "b"]
        = firstOccur []
            ((([⟨strBytes "select ", .name (strBytes "a"), .text⟩,
                ⟨strBytes ", ", .name (strBytes "a"), .text⟩,
                ⟨strBytes ", ", .name (strBytes "b"), .binary⟩,
                ⟨[], .index 0, .text⟩] : List QueryPart).dropLast).map (·.item.nm)))
    ∧ pgNamedStep ⟨[], [], [], []⟩ ⟨strBytes "select ", .name (strBytes "a"), .text⟩
        = .ok ⟨[(strBytes "a", (dollar 1, .text))], [strBytes "a"],
               strBytes "select " ++ dollar 1, [.text]⟩
    ∧ pgNamedStep ⟨[(strBytes "a", (dollar 1, .text))], [strBytes "a"],
          strBytes "select " ++ dollar 1, [.text]⟩
        ⟨strBytes ", ", .name (strBytes "a"), .text⟩
        = .ok ⟨[(strBytes "a", (dollar 1, .text))], [strBytes "a"],
               (strBytes "select " ++ dollar 1) ++ strBytes ", " ++ dollar 1,
               [.text]⟩ := by
  refine ⟨?_, ?_, ?_⟩
  · exact (claim_C1.1 (strBytes "select %(a)s, %(a)s, %(b)b") _ _ _ _
      claim_C1.2.2.2).1
  · have h := claim_C1.2.1 ⟨[], [], [], []⟩
      ⟨strBytes "select ", .name (strBytes "a"), .text⟩ (by decide)
    simpa using h
  · have h := claim_C1.2.2.1
      ⟨[(strBytes "a", (dollar 1, .text))], [strBytes "a"],
       strBytes "select " ++ dollar 1, [.text]⟩
      ⟨strBytes ", ", .name (strBytes "a"), .text⟩ (dollar 1)
      (by simp [alookup, PhItem.nm])
    simpa using h

end Psycopg3
